import Mathlib

/-!
Verification of the Retro_photoboot core logic.

This file gives a shallow embedding of the application's capture pipeline
(`takePhoto`, `startCountdown`), caption request (`handleGenerateCaption`,
`generateVintageCaption`) and composite exporter (`downloadPhotoStrip`:
grid layout and caption word wrap), and proves the behavioural claims
about them.

Modelling conventions:
* Browser/camera/canvas collaborators are passed in as explicit arguments
  (the pixel data a mirrored filtered draw would produce, the PNG encoder,
  the text-measuring function of the 2d context, the clock).
* `Uint8ClampedArray` element stores follow the ECMAScript `ToUint8Clamp`
  conversion: clamp to [0, 255] with round-half-to-even (`toUint8Clamp`).
* `Math.random() * 20 - 10` draws are modelled as arbitrary rationals in
  [-10, 10) (every double the expression can produce is such a rational).
-/

namespace RetroBooth

/-- One RGBA pixel of the image data returned by `getImageData` (four
consecutive entries of its `Uint8ClampedArray`), each channel a byte. -/
structure Pixel where
  r : ℕ
  g : ℕ
  b : ℕ
  a : ℕ
  deriving DecidableEq

/-- The `Photo` record of `types.ts`. -/
structure Photo where
  id : String
  dataUrl : String
  timestamp : ℤ
  filter : String
  deriving DecidableEq

/-- The `FilterConfig` record of `types.ts` (`class` is renamed `cssClass`,
`class` being a Lean keyword). -/
structure FilterConfig where
  name : String
  label : String
  cssClass : String
  cssFilter : String
  deriving DecidableEq, Inhabited

/-- The static `FILTERS` list of the app component. -/
def FILTERS : List FilterConfig :=
  [ ⟨"normal", "Normal", "", "none"⟩,
    ⟨"grayscale", "B&W", "grayscale", "grayscale(100%) contrast(110%)"⟩,
    ⟨"sepia", "Sepia", "sepia", "sepia(80%) contrast(90%) brightness(110%)"⟩,
    ⟨"vintage", "Vintage", "sepia contrast-125 brightness-90",
      "sepia(50%) contrast(125%) brightness(90%) saturate(80%)"⟩,
    ⟨"warm", "Warm", "", "sepia(30%) saturate(140%) hue-rotate(-10deg)"⟩ ]

/-- The React state of the `App` component that the core operations read
and write (`photos`, `selectedFilter`, `countdown`, `isCapturing`,
`generatedCaption`, `isGeneratingCaption`). -/
structure AppState where
  photos : List Photo
  selectedFilter : FilterConfig
  countdown : Option ℕ
  isCapturing : Bool
  generatedCaption : String
  isGeneratingCaption : Bool
  deriving DecidableEq

/-- The initial state of the `App` component's `useState` hooks. -/
def initAppState : AppState :=
  { photos := []
    selectedFilter := FILTERS.headI
    countdown := none
    isCapturing := false
    generatedCaption := ""
    isGeneratingCaption := false }

/-- ECMAScript round-half-to-even on a rational, as used by the
`ToUint8Clamp` conversion for `Uint8ClampedArray` element stores. -/
def jsRound (q : ℚ) : ℤ :=
  let f : ℤ := ⌊q⌋
  let frac : ℚ := q - f
  if frac < 1 / 2 then f
  else if 1 / 2 < frac then f + 1
  else if f % 2 = 0 then f else f + 1

/-- ECMAScript `ToUint8Clamp`: the value actually stored by
`data[i] = data[i] + noise` on a `Uint8ClampedArray`. -/
def toUint8Clamp (q : ℚ) : ℕ :=
  if q ≤ 0 then 0
  else if 255 ≤ q then 255
  else (jsRound q).toNat

/-- One iteration of the noise loop of `takePhoto`: the same random draw
`n` is added to the red, green and blue entries of one pixel (indices
`i`, `i+1`, `i+2`), each store going through `toUint8Clamp`; the alpha
entry `i+3` is not written. -/
def noisePixel (p : Pixel) (n : ℚ) : Pixel :=
  { r := toUint8Clamp ((p.r : ℚ) + n)
    g := toUint8Clamp ((p.g : ℚ) + n)
    b := toUint8Clamp ((p.b : ℚ) + n)
    a := p.a }

/-- The pixel data of a capture: `takePhoto` runs the noise loop over the
image data of the mirrored filtered draw (`base`) exactly when the
selected filter's name is not `"normal"`; `noise` is the stream of
`Math.random() * 20 - 10` draws, one per pixel. -/
def capturedPixels (filterName : String) (base : List Pixel) (noise : List ℚ) : List Pixel :=
  if filterName ≠ "normal" then List.zipWith noisePixel base noise else base

/-- `takePhoto` of the `App` component. `hasVideo` / `hasCanvas` model
`videoRef.current` / `canvasRef.current` being non-null, `ctx` models
`canvas.getContext` (carrying, when available, the pixel data `base` that
the mirrored filtered draw produces on it), `now` is `Date.now()` and
`encode` is `canvas.toDataURL`. On any missing resource the function
returns the state unchanged (the early `return`s). -/
def takePhoto (hasVideo hasCanvas : Bool) (ctx : Option (List Pixel))
    (noise : List ℚ) (now : ℤ) (encode : List Pixel → String)
    (s : AppState) : AppState :=
  if !hasVideo || !hasCanvas then s
  else
    match ctx with
    | none => s
    | some base =>
        let pix := capturedPixels s.selectedFilter.name base noise
        let newPhoto : Photo :=
          { id := toString now
            dataUrl := encode pix
            timestamp := now
            filter := s.selectedFilter.name }
        { s with photos := s.photos ++ [newPhoto] }

/-- The layout quantities computed at the top of `downloadPhotoStrip`:
`rows = Math.ceil(photos.length / cols) || 2` (the `|| 2` fires exactly
when the ceiling is `0`, i.e. when the collection is empty), canvas
width `contentWidth + padding * 2` and canvas height
`contentHeight + padding * 2 + bottomLabelHeight`. -/
structure StripLayout where
  cols : ℕ
  rows : ℕ
  width : ℕ
  height : ℕ
  deriving DecidableEq

/-- The layout portion of `downloadPhotoStrip`, as a function of the
number `n` of captured photos. `(n + cols - 1) / cols` is
`Math.ceil(n / cols)` over the naturals. -/
def stripLayout (n : ℕ) : StripLayout :=
  let cols := 2
  let photoWidth := 300
  let photoHeight := 225
  let gap := 20
  let padding := 40
  let bottomLabelHeight := 150
  let ceilRows := (n + cols - 1) / cols
  let rows := if ceilRows = 0 then 2 else ceilRows
  let contentWidth := cols * photoWidth + (cols - 1) * gap
  let contentHeight := rows * photoHeight + (rows - 1) * gap
  { cols := cols
    rows := rows
    width := contentWidth + padding * 2
    height := contentHeight + padding * 2 + bottomLabelHeight }

/-- Concatenation of a list of strings, used to state that the word wrap
never splits a word: the committed lines concatenate back to the original
word sequence. -/
def joinAll : List String → String
  | [] => ""
  | s :: ss => s ++ joinAll ss

/-- The caption word-wrap loop of `downloadPhotoStrip` (the `for` loop over
`words` plus the final `fillText`). `measure` models `ctx.measureText`'s
width, `limit` is the bound `stripCanvas.width - 60` the candidate line is
compared against, `n` is the loop index, `line` the accumulator, `y` the
vertical text cursor, and `acc` the lines committed (`fillText`ed) so far,
each with the `y` it was drawn at. -/
def wrapCaptionAux (measure : String → ℚ) (limit : ℚ) :
    List String → ℕ → String → ℤ → List (String × ℤ) → List (String × ℤ)
  | [], _, line, y, acc => acc ++ [(line, y)]
  | w :: ws, n, line, y, acc =>
    let testLine := line ++ w ++ " "
    if limit < measure testLine ∧ 0 < n then
      wrapCaptionAux measure limit ws (n + 1) (w ++ " ") (y + 30) (acc ++ [(line, y)])
    else
      wrapCaptionAux measure limit ws (n + 1) testLine y acc

/-- The word wrap of `downloadPhotoStrip`, starting from loop index `0`,
an empty line and the starting cursor `startY = stripCanvas.height - 60`;
`words` is `generatedCaption.split(' ')`. -/
def wrapCaption (measure : String → ℚ) (limit : ℚ) (words : List String)
    (startY : ℤ) : List (String × ℤ) :=
  wrapCaptionAux measure limit words 0 "" startY []

/-- Modelled from the spec: the greedy word wrap as the specification
words it, with the break condition "adding the word would exceed the
bound and the line already contains at least one word" rendered as
`line ≠ ""` (a line that has received a word is nonempty). Used to show
the code's loop refines the spec's description. -/
def wrapCaptionSpecAux (measure : String → ℚ) (limit : ℚ) :
    List String → String → ℤ → List (String × ℤ) → List (String × ℤ)
  | [], line, y, acc => acc ++ [(line, y)]
  | w :: ws, line, y, acc =>
    let candidate := line ++ w ++ " "
    if limit < measure candidate ∧ line ≠ "" then
      wrapCaptionSpecAux measure limit ws (w ++ " ") (y + 30) (acc ++ [(line, y)])
    else
      wrapCaptionSpecAux measure limit ws candidate y acc

/-- Modelled from the spec: entry point of the spec's greedy word wrap. -/
def wrapCaptionSpec (measure : String → ℚ) (limit : ℚ) (words : List String)
    (startY : ℤ) : List (String × ℤ) :=
  wrapCaptionSpecAux measure limit words "" startY []

/-- `generateVintageCaption` of `services/gemini.ts`. `apiKey` models
`process.env.REACT_API_KEY` (`none` means the variable is missing, in
which case `getAiClient` throws inside the `try` and the `catch` returns
the fallback). `generateContent` models the external
`ai.models.generateContent` call: it receives the payload
`base64Image.split(",")[1]` (`none` when there is no comma) and either
throws/rejects (`Except.error`) or resolves with the optional
`response.text`; `response.text || "Vibe check passed."` treats an absent
or empty text as falsy. -/
def generateVintageCaption (apiKey : Option String)
    (generateContent : Option String → Except String (Option String))
    (base64Image : String) : String :=
  match apiKey with
  | none => "Error developing caption..."
  | some _ =>
    let base64Data := (base64Image.splitOn ",").get? 1
    match generateContent base64Data with
    | Except.error _ => "Error developing caption..."
    | Except.ok none => "Vibe check passed."
    | Except.ok (some t) => if t = "" then "Vibe check passed." else t

/-- `handleGenerateCaption` of the `App` component. `svc` is the settled
result of `generateVintageCaption` as a function of the data URL sent.
Returns the state after the call settles together with the argument
passed to the captioning collaborator (`none` when no call is made: the
guard `photos.length === 0` returns early). -/
def handleGenerateCaption (svc : String → String) (s : AppState) :
    AppState × Option String :=
  if s.photos.length = 0 then (s, none)
  else
    let lastUrl := ((s.photos.get? (s.photos.length - 1)).map Photo.dataUrl).getD ""
    ({ s with isGeneratingCaption := false, generatedCaption := svc lastUrl },
     some lastUrl)

/-- The environment a timer tick fires in: the resources `takePhoto` will
find at that moment (see `takePhoto`). -/
structure CaptureEnv where
  hasVideo : Bool
  hasCanvas : Bool
  ctx : Option (List Pixel)
  noise : List ℚ
  now : ℤ
  encode : List Pixel → String

/-- The component state together with the `setInterval` timers currently
scheduled; each timer carries the current value of its closure variable
`count`. A correct run has at most one timer, but the type allows more so
that the re-entrancy guard is a theorem, not an assumption. -/
structure BoothState where
  app : AppState
  timers : List ℕ

/-- The state right after mount: initial hook values, no timer. -/
def initBooth : BoothState :=
  { app := initAppState, timers := [] }

/-- `startCountdown` of the `App` component: a no-op while `isCapturing`
is set; otherwise sets `isCapturing`, shows `3` and schedules an interval
timer whose closure variable `count` starts at `3`. -/
def startCountdown (s : BoothState) : BoothState :=
  if s.app.isCapturing then s
  else
    { app := { s.app with isCapturing := true, countdown := some 3 }
      timers := s.timers ++ [3] }

/-- One firing of the interval callback of `startCountdown` for the `i`-th
scheduled timer: `count--`; while positive it only updates the displayed
countdown; at zero it clears the interval, hides the countdown, runs
`takePhoto` in the environment `env`, and resets `isCapturing`. -/
def tickTimer (env : CaptureEnv) (i : ℕ) (s : BoothState) : BoothState :=
  match s.timers.get? i with
  | none => s
  | some count =>
    let c := count - 1
    if 0 < c then
      { app := { s.app with countdown := some c }, timers := s.timers.set i c }
    else
      { app := { takePhoto env.hasVideo env.hasCanvas env.ctx env.noise env.now
                   env.encode { s.app with countdown := none } with
                 isCapturing := false }
        timers := s.timers.eraseIdx i }

/-- The discrete events the single-threaded UI can process: the shutter
button (`startCountdown`), an interval firing, a filter button, the reset
button (`clearPhotos`), and a settled caption request. -/
inductive Event where
  | startCount : Event
  | tick : ℕ → CaptureEnv → Event
  | selectFilter : FilterConfig → Event
  | clearPhotos : Event
  | caption : (String → String) → Event

/-- The event-step function of the application. -/
def step (e : Event) (s : BoothState) : BoothState :=
  match e with
  | Event.startCount => startCountdown s
  | Event.tick i env => tickTimer env i s
  | Event.selectFilter f => { s with app := { s.app with selectedFilter := f } }
  | Event.clearPhotos => { s with app := { s.app with photos := [], generatedCaption := "" } }
  | Event.caption svc => { s with app := (handleGenerateCaption svc s.app).1 }

/-- States reachable from the mounted component by user/timer events. -/
inductive Reachable : BoothState → Prop where
  | init : Reachable initBooth
  | step : ∀ (e : Event) {s : BoothState}, Reachable s → Reachable (step e s)

/-- The countdown invariant: at most one interval timer is scheduled, and
one is scheduled exactly while `isCapturing` is set. -/
def CountdownInv (s : BoothState) : Prop :=
  s.timers.length ≤ 1 ∧ (s.app.isCapturing = true ↔ s.timers ≠ [])

/-- Claim C1: for every valid frame source and selected filter, one call
to `takePhoto` appends exactly one `Photo` to the end of the collection;
every prior element is unchanged in order and content (the old list is
the prefix of the new one), and no other state field (selected filter,
caption string, countdown, flags) is mutated. -/
theorem takePhoto_appends_one (base : List Pixel) (noise : List ℚ) (now : ℤ)
    (encode : List Pixel → String) (s : AppState) :
    (takePhoto true true (some base) noise now encode s).photos
      = s.photos ++ [⟨toString now,
          encode (capturedPixels s.selectedFilter.name base noise), now,
          s.selectedFilter.name⟩] ∧
    (takePhoto true true (some base) noise now encode s).photos.length
      = s.photos.length + 1 ∧
    (takePhoto true true (some base) noise now encode s).photos.take s.photos.length
      = s.photos ∧
    (takePhoto true true (some base) noise now encode s).selectedFilter
      = s.selectedFilter ∧
    (takePhoto true true (some base) noise now encode s).generatedCaption
      = s.generatedCaption ∧
    (takePhoto true true (some base) noise now encode s).countdown = s.countdown ∧
    (takePhoto true true (some base) noise now encode s).isCapturing = s.isCapturing ∧
    (takePhoto true true (some base) noise now encode s).isGeneratingCaption
      = s.isGeneratingCaption := by
  refine ⟨rfl, ?_, ?_, rfl, rfl, rfl, rfl, rfl⟩
  · simp [takePhoto]
  · simp [takePhoto, List.take_left]

/-- Claim C2: when no frame source is available (video element, canvas,
or its 2d context missing), `takePhoto` is a no-op: the state — and in
particular the capture collection — is returned unchanged, and being a
total function, no exception escapes. -/
theorem takePhoto_no_source (hasVideo hasCanvas : Bool) (ctx : Option (List Pixel))
    (noise : List ℚ) (now : ℤ) (encode : List Pixel → String) (s : AppState)
    (h : hasVideo = false ∨ hasCanvas = false ∨ ctx = none) :
    takePhoto hasVideo hasCanvas ctx noise now encode s = s := by
  rcases h with h | h | h <;> subst h <;> unfold takePhoto <;> simp

/-- Claim C2 witness: `takePhoto` with the video element missing, on the
initial state. -/
theorem takePhoto_no_source_w :
    takePhoto false true (some []) [] 0 (fun _ => "") initAppState = initAppState :=
  takePhoto_no_source false true (some []) [] 0 (fun _ => "") initAppState (Or.inl rfl)

/-- Claim C4: under the filter named "normal" the noise loop does not
run: the captured photo's data URL encodes exactly the unperturbed
mirrored draw `base`. -/
theorem takePhoto_normal_filter (base : List Pixel) (noise : List ℚ) (now : ℤ)
    (encode : List Pixel → String) (s : AppState)
    (h : s.selectedFilter.name = "normal") :
    takePhoto true true (some base) noise now encode s
      = { s with photos := s.photos
            ++ [⟨toString now, encode base, now, s.selectedFilter.name⟩] } := by
  simp [takePhoto, capturedPixels, h]

/-- Claim C4 witness: a capture on the initial state (whose selected
filter is the "normal" one) with concrete pixel data. -/
theorem takePhoto_normal_filter_w :
    takePhoto true true (some [⟨1, 2, 3, 255⟩]) [(5 : ℚ)] 0 (fun _ => "png") initAppState
      = { initAppState with
            photos := [⟨toString (0 : ℤ), "png", 0, initAppState.selectedFilter.name⟩] } :=
  takePhoto_normal_filter [⟨1, 2, 3, 255⟩] [(5 : ℚ)] 0 (fun _ => "png") initAppState rfl

/-- Claim C5 counterexample: with one captured photo `downloadPhotoStrip`
computes a single row — `Math.ceil(1/2) || 2` is `1` — so the claimed
2-row minimum does not hold for every small `N`, and the canvas is
strictly lower than the 2-row canvas. -/
theorem stripLayout_single_photo_cex :
    (stripLayout 1).rows = 1 ∧ ¬ 2 ≤ (stripLayout 1).rows ∧
    (stripLayout 1).height = 455 ∧ (stripLayout 0).height = 700 ∧
    (stripLayout 1).height < (stripLayout 0).height := by decide

/-- Claim C5 (amended): the export grid has 2 columns; for every nonempty
collection the row count is exactly the ceiling of N/2 (characterised by
N ≤ 2·rows ≤ N+1), and the 2-row reservation applies only to the empty
collection. -/
theorem stripLayout_rows_ceil (n : ℕ) :
    (stripLayout n).cols = 2 ∧
    (n = 0 → (stripLayout n).rows = 2) ∧
    (1 ≤ n → n ≤ 2 * (stripLayout n).rows ∧ 2 * (stripLayout n).rows ≤ n + 1) := by
  refine ⟨rfl, ?_, ?_⟩
  · intro h; subst h; rfl
  · intro h
    simp only [stripLayout]
    split_ifs with h0 <;> omega

/-- Claim C5 (amended) witness: the characterisation evaluated for one
photo and for the empty collection. -/
theorem stripLayout_rows_ceil_w :
    (stripLayout 1).cols = 2 ∧ 1 ≤ 2 * (stripLayout 1).rows ∧
    2 * (stripLayout 1).rows ≤ 2 ∧ (stripLayout 0).rows = 2 :=
  ⟨(stripLayout_rows_ceil 1).1,
   ((stripLayout_rows_ceil 1).2.2 (by decide)).1,
   ((stripLayout_rows_ceil 1).2.2 (by decide)).2,
   (stripLayout_rows_ceil 0).2.1 rfl⟩

/-- Claim C7: export with an empty collection succeeds (the layout is a
total function) and its canvas height is the minimum 2-row reservation:
two 225-unit rows, one 20-unit gap, 40-unit padding twice, and the
150-unit bottom label band. -/
theorem stripLayout_empty_height :
    (stripLayout 0).rows = 2 ∧
    (stripLayout 0).height = 2 * 225 + 1 * 20 + 2 * 40 + 150 := by decide

/-- Round-half-to-even never rounds below the floor. -/
lemma floor_le_jsRound (q : ℚ) : ⌊q⌋ ≤ jsRound q := by
  simp only [jsRound]
  split_ifs <;> omega

/-- Round-half-to-even never rounds above the ceiling. -/
lemma jsRound_le_ceil (q : ℚ) : jsRound q ≤ ⌈q⌉ := by
  simp only [jsRound]
  split_ifs with h1 h2 h3
  · exact Int.floor_le_ceil q
  · have hq : (⌊q⌋ : ℚ) < q := by linarith
    have := Int.lt_ceil.mpr hq
    omega
  · exact Int.floor_le_ceil q
  · have hq : (⌊q⌋ : ℚ) < q := by
      have : (1 : ℚ) / 2 ≤ q - ⌊q⌋ := le_of_not_lt h1
      linarith
    have := Int.lt_ceil.mpr hq
    omega

/-- Storing `v + n` into a `Uint8ClampedArray` slot holding the byte `v`,
for a noise draw `n ∈ [-10, 10)`, moves the stored value by at most `10`
in either direction. -/
lemma toUint8Clamp_add_bound (v : ℕ) (n : ℚ) (hv : v ≤ 255)
    (h1 : -10 ≤ n) (h2 : n < 10) :
    -10 ≤ ((toUint8Clamp ((v : ℚ) + n) : ℤ) - (v : ℤ)) ∧
    ((toUint8Clamp ((v : ℚ) + n) : ℤ) - (v : ℤ)) ≤ 10 := by
  unfold toUint8Clamp
  split_ifs with hle hge
  · have hv10 : (v : ℚ) ≤ 10 := by linarith
    have hv10z : (v : ℤ) ≤ 10 := by exact_mod_cast hv10
    constructor <;> push_cast <;> omega
  · have h245 : (245 : ℚ) < (v : ℚ) := by linarith
    have h245z : (245 : ℤ) < (v : ℤ) := by exact_mod_cast h245
    have hvz : (v : ℤ) ≤ 255 := by exact_mod_cast hv
    constructor <;> push_cast <;> omega
  · have h0 : (0 : ℚ) < (v : ℚ) + n := lt_of_not_le hle
    have hfl : (v : ℤ) - 10 ≤ ⌊(v : ℚ) + n⌋ := by
      apply Int.le_floor.mpr
      push_cast
      linarith
    have hcl : ⌈(v : ℚ) + n⌉ ≤ (v : ℤ) + 10 := by
      apply Int.ceil_le.mpr
      push_cast
      linarith
    have hjl := floor_le_jsRound ((v : ℚ) + n)
    have hju := jsRound_le_ceil ((v : ℚ) + n)
    have hnn : 0 ≤ jsRound ((v : ℚ) + n) := by
      have hf0 : (0 : ℤ) ≤ ⌊(v : ℚ) + n⌋ := Int.le_floor.mpr (by push_cast; linarith)
      omega
    rw [Int.toNat_of_nonneg hnn]
    omega

/-- Claim C3 counterexample: the noise addition is not unclamped. For a
pixel whose red channel of the unperturbed mirrored draw is 255 and a
noise draw of 5 (within the claimed range [-10, 10]), the stored red
channel is 255 — the `Uint8ClampedArray` store saturates — whereas
unclamped addition of the same value would require 255 + 5. -/
theorem capturedPixels_unclamped_cex :
    ((-10 : ℚ) ≤ 5 ∧ (5 : ℚ) ≤ 10) ∧
    (capturedPixels "sepia" [⟨255, 100, 100, 255⟩] [(5 : ℚ)]).map Pixel.r = [255] ∧
    (255 : ℕ) + 5 ≠ 255 := by
  have hcl : toUint8Clamp ((255 : ℚ) + 5) = 255 := by
    rw [toUint8Clamp, if_neg (by norm_num), if_pos (by norm_num)]
  have hcap : capturedPixels "sepia" [⟨255, 100, 100, 255⟩] [(5 : ℚ)]
      = [noisePixel ⟨255, 100, 100, 255⟩ 5] := by
    rw [capturedPixels, if_pos (by decide : ("sepia" : String) ≠ "normal")]
    rfl
  refine ⟨⟨by norm_num, by norm_num⟩, ?_, by decide⟩
  rw [hcap]
  simp [noisePixel, hcl]

/-- Claim C3 (amended): for a capture under a non-"normal" filter, the
noise loop visits every pixel; for pixel `i` one random draw `noise i` in
[-10, 10) is added to the red, green and blue channels alike, each store
going through the `Uint8ClampedArray` conversion (round half-to-even,
saturate to [0, 255]) — so each channel moves by at most 10 from the
unperturbed mirrored draw, though the realised per-channel deltas may
differ at the 0/255 boundaries — and the alpha channel is unchanged. -/
theorem capturedPixels_noise_bound (fname : String) (base : List Pixel) (noise : List ℚ)
    (hf : fname ≠ "normal") (hlen : base.length = noise.length)
    (hb : ∀ p ∈ base, p.r ≤ 255 ∧ p.g ≤ 255 ∧ p.b ≤ 255)
    (hn : ∀ n ∈ noise, -10 ≤ n ∧ n < 10) :
    (capturedPixels fname base noise).length = base.length ∧
    ∀ i (h3 : i < (capturedPixels fname base noise).length) (h1 : i < base.length)
      (h2 : i < noise.length),
      (capturedPixels fname base noise).get ⟨i, h3⟩
        = noisePixel (base.get ⟨i, h1⟩) (noise.get ⟨i, h2⟩) ∧
      ((capturedPixels fname base noise).get ⟨i, h3⟩).a = (base.get ⟨i, h1⟩).a ∧
      (-10 ≤ (((capturedPixels fname base noise).get ⟨i, h3⟩).r : ℤ)
          - ((base.get ⟨i, h1⟩).r : ℤ) ∧
        (((capturedPixels fname base noise).get ⟨i, h3⟩).r : ℤ)
          - ((base.get ⟨i, h1⟩).r : ℤ) ≤ 10) ∧
      (-10 ≤ (((capturedPixels fname base noise).get ⟨i, h3⟩).g : ℤ)
          - ((base.get ⟨i, h1⟩).g : ℤ) ∧
        (((capturedPixels fname base noise).get ⟨i, h3⟩).g : ℤ)
          - ((base.get ⟨i, h1⟩).g : ℤ) ≤ 10) ∧
      (-10 ≤ (((capturedPixels fname base noise).get ⟨i, h3⟩).b : ℤ)
          - ((base.get ⟨i, h1⟩).b : ℤ) ∧
        (((capturedPixels fname base noise).get ⟨i, h3⟩).b : ℤ)
          - ((base.get ⟨i, h1⟩).b : ℤ) ≤ 10) := by
  have hcap : capturedPixels fname base noise = List.zipWith noisePixel base noise := by
    simp [capturedPixels, hf]
  constructor
  · rw [hcap, List.length_zipWith, hlen, Nat.min_self]
  · intro i h3 h1 h2
    have hsome : (capturedPixels fname base noise).get? i
        = some (noisePixel (base.get ⟨i, h1⟩) (noise.get ⟨i, h2⟩)) := by
      rw [hcap]
      exact (List.get?_zipWith_eq_some noisePixel base noise _ i).mpr
        ⟨base.get ⟨i, h1⟩, noise.get ⟨i, h2⟩,
          List.get?_eq_get h1, List.get?_eq_get h2, rfl⟩
    have hget : (capturedPixels fname base noise).get ⟨i, h3⟩
        = noisePixel (base.get ⟨i, h1⟩) (noise.get ⟨i, h2⟩) := by
      have h5 := List.get?_eq_get h3
      rw [hsome] at h5
      exact (Option.some.inj h5).symm
    have hp := hb (base.get ⟨i, h1⟩) (base.get_mem i h1)
    have hq := hn (noise.get ⟨i, h2⟩) (noise.get_mem i h2)
    refine ⟨hget, ?_, ?_, ?_, ?_⟩ <;> rw [hget]
    · rfl
    · exact toUint8Clamp_add_bound _ _ hp.1 hq.1 hq.2
    · exact toUint8Clamp_add_bound _ _ hp.2.1 hq.1 hq.2
    · exact toUint8Clamp_add_bound _ _ hp.2.2 hq.1 hq.2

/-- Claim C3 (amended) witness: the bound theorem evaluated on a one-pixel
draw with noise value 5 under the "sepia" filter. -/
theorem capturedPixels_noise_bound_w :
    (capturedPixels "sepia" [⟨0, 128, 255, 255⟩] [(5 : ℚ)]).length
      = ([(⟨0, 128, 255, 255⟩ : Pixel)]).length ∧
    ((capturedPixels "sepia" [⟨0, 128, 255, 255⟩] [(5 : ℚ)]).get ⟨0, by decide⟩).a
      = 255 := by
  have h := capturedPixels_noise_bound "sepia" [⟨0, 128, 255, 255⟩] [(5 : ℚ)]
    (by decide) (by decide) (by decide) (by decide)
  exact ⟨h.1, (h.2 0 (by decide) (by decide) (by decide)).2.1⟩

/-- The element at index `length - 1` of a nonempty list is its last. -/
lemma get?_last {α : Type} (l : List α) (h : l ≠ []) :
    l.get? (l.length - 1) = some (l.getLast h) := by
  induction l with
  | nil => exact absurd rfl h
  | cons a t ih =>
    cases t with
    | nil => rfl
    | cons b t2 =>
      have ih2 := ih (List.cons_ne_nil b t2)
      simp only [List.length_cons, Nat.add_sub_cancel, List.get?_cons_succ]
      rw [List.getLast_cons (List.cons_ne_nil b t2)]
      simpa using ih2

/-- Claim C8: whenever the external captioning call fails — the API key
is missing (so `getAiClient` throws) or the service call throws/rejects —
`generateVintageCaption` returns the fixed fallback string
"Error developing caption..." instead of propagating the error; as a
total function returning `String`, no exception escapes. -/
theorem generateVintageCaption_fallback (apiKey : Option String)
    (generateContent : Option String → Except String (Option String))
    (base64Image : String)
    (h : apiKey = none ∨
      ∃ e, generateContent ((base64Image.splitOn ",").get? 1) = Except.error e) :
    generateVintageCaption apiKey generateContent base64Image
      = "Error developing caption..." := by
  rcases h with h | ⟨e, he⟩
  · rw [h]
    rfl
  · cases apiKey with
    | none => rfl
    | some k =>
      simp only [generateVintageCaption]
      rw [he]

/-- Claim C8 witness: the fallback on a missing API key and on a service
error. -/
theorem generateVintageCaption_fallback_w :
    generateVintageCaption none (fun _ => Except.ok (some "hi")) "img"
      = "Error developing caption..." ∧
    generateVintageCaption (some "key") (fun _ => Except.error "boom")
        "data:image/png;base64,AAAA"
      = "Error developing caption..." :=
  ⟨generateVintageCaption_fallback none _ "img" (Or.inl rfl),
   generateVintageCaption_fallback (some "key") _ _ (Or.inr ⟨"boom", rfl⟩)⟩

/-- Claim C10: requesting a caption with a nonempty collection sends
exactly the data URL of the last (most recently appended) photo to the
captioning collaborator and stores the collaborator's answer for it,
leaving the collection and the selected filter alone; with an empty
collection it is a no-op — nothing is sent and the state (in particular
the caption) is unchanged. -/
theorem handleGenerateCaption_last (svc : String → String) (s : AppState) :
    (s.photos.length = 0 → handleGenerateCaption svc s = (s, none)) ∧
    ∀ h : s.photos ≠ [],
      (handleGenerateCaption svc s).2 = some (s.photos.getLast h).dataUrl ∧
      (handleGenerateCaption svc s).1.generatedCaption
        = svc (s.photos.getLast h).dataUrl ∧
      (handleGenerateCaption svc s).1.photos = s.photos ∧
      (handleGenerateCaption svc s).1.selectedFilter = s.selectedFilter := by
  constructor
  · intro h0
    simp [handleGenerateCaption, h0]
  · intro h
    have hlen : s.photos.length ≠ 0 := fun h0 => h (List.length_eq_zero.mp h0)
    have hurl : ((s.photos.get? (s.photos.length - 1)).map Photo.dataUrl).getD ""
        = (s.photos.getLast h).dataUrl := by
      rw [get?_last s.photos h]
      rfl
    refine ⟨?_, ?_, ?_, ?_⟩ <;>
      simp only [handleGenerateCaption, if_neg hlen, hurl]

/-- Claim C10 witness: a one-photo collection sends that photo's data
URL; the empty initial state sends nothing and stays unchanged. -/
theorem handleGenerateCaption_last_w :
    (handleGenerateCaption (fun _ => "vibes")
        { initAppState with photos := [⟨"1", "data", 0, "normal"⟩] }).2
      = some "data" ∧
    handleGenerateCaption (fun _ => "vibes") initAppState = (initAppState, none) := by
  constructor
  · exact ((handleGenerateCaption_last (fun _ => "vibes") _).2 (by decide)).1
  · exact (handleGenerateCaption_last (fun _ => "vibes") initAppState).1 rfl

/-- A line that has just received a word (it ends in the appended space)
is nonempty. -/
lemma append_space_ne (s : String) : s ++ " " ≠ "" := by
  intro h
  have hl := congrArg String.length h
  rw [String.length_append] at hl
  have h1 : (" " : String).length = 1 := rfl
  have h0 : ("" : String).length = 0 := rfl
  omega

/-- The code's loop-index guard `n > 0` coincides with the spec's "the
line already contains at least one word": the loop keeps the invariant
`0 < n ↔ line ≠ \"\"`, so the two loops compute the same lines. -/
lemma wrapCaptionAux_eq_spec (measure : String → ℚ) (limit : ℚ) :
    ∀ (ws : List String) (n : ℕ) (line : String) (y : ℤ) (acc : List (String × ℤ)),
      (0 < n ↔ line ≠ "") →
      wrapCaptionAux measure limit ws n line y acc
        = wrapCaptionSpecAux measure limit ws line y acc := by
  intro ws
  induction ws with
  | nil => intro n line y acc hinv; rfl
  | cons w ws ih =>
    intro n line y acc hinv
    simp only [wrapCaptionAux, wrapCaptionSpecAux]
    by_cases hm : limit < measure (line ++ w ++ " ")
    · by_cases hn : 0 < n
      · have hline : line ≠ "" := hinv.mp hn
        rw [if_pos ⟨hm, hn⟩, if_pos ⟨hm, hline⟩]
        exact ih (n + 1) (w ++ " ") (y + 30) _
          (iff_of_true (Nat.succ_pos n) (append_space_ne w))
      · have hline : line = "" := by
          by_contra hc
          exact hn (hinv.mpr hc)
        rw [if_neg (fun hh => hn hh.2), if_neg (fun hh => hh.2 hline)]
        exact ih (n + 1) _ y acc
          (iff_of_true (Nat.succ_pos n) (append_space_ne _))
    · rw [if_neg (fun hh => hm hh.1), if_neg (fun hh => hm hh.1)]
      exact ih (n + 1) _ y acc
        (iff_of_true (Nat.succ_pos n) (append_space_ne _))

/-- `joinAll` distributes over list append. -/
lemma joinAll_append (a b : List String) :
    joinAll (a ++ b) = joinAll a ++ joinAll b := by
  induction a with
  | nil => simp [joinAll, String.empty_append]
  | cons x xs ih => simp [joinAll, ih, String.append_assoc]

/-- The committed lines concatenate to the committed prefix, the open
line, and the remaining words each followed by one space: no word is ever
split or dropped. -/
lemma wrapCaptionAux_text (measure : String → ℚ) (limit : ℚ) :
    ∀ (ws : List String) (n : ℕ) (line : String) (y : ℤ) (acc : List (String × ℤ)),
      joinAll ((wrapCaptionAux measure limit ws n line y acc).map Prod.fst)
        = joinAll (acc.map Prod.fst) ++ line
            ++ joinAll (ws.map (fun w => w ++ " ")) := by
  intro ws
  induction ws with
  | nil =>
    intro n line y acc
    simp [wrapCaptionAux, joinAll_append, joinAll, String.append_empty]
  | cons w ws ih =>
    intro n line y acc
    simp only [wrapCaptionAux]
    split_ifs with h
    · rw [ih]
      simp [joinAll_append, joinAll, String.append_assoc, String.append_empty]
    · rw [ih]
      simp [joinAll, String.append_assoc]

/-- The wrap loop always commits at least the final line. -/
lemma wrapCaptionAux_length (measure : String → ℚ) (limit : ℚ) :
    ∀ (ws : List String) (n : ℕ) (line : String) (y : ℤ) (acc : List (String × ℤ)),
      acc.length + 1 ≤ (wrapCaptionAux measure limit ws n line y acc).length := by
  intro ws
  induction ws with
  | nil => intro n line y acc; simp [wrapCaptionAux]
  | cons w ws ih =>
    intro n line y acc
    simp only [wrapCaptionAux]
    split_ifs with h
    · have := ih (n + 1) (w ++ " ") (y + 30) (acc ++ [(line, y)])
      simp only [List.length_append, List.length_singleton] at this
      omega
    · exact ih (n + 1) _ y acc

/-- Committed lines sit at `y0`, `y0 + 30`, `y0 + 60`, …: each line break
advances the vertical cursor by exactly 30 units. -/
lemma wrapCaptionAux_positions (measure : String → ℚ) (limit : ℚ) (y0 : ℤ) :
    ∀ (ws : List String) (n : ℕ) (line : String) (y : ℤ) (acc : List (String × ℤ)),
      y = y0 + 30 * acc.length →
      (∀ j (hj : j < acc.length), (acc.get ⟨j, hj⟩).2 = y0 + 30 * j) →
      ∀ k (hk : k < (wrapCaptionAux measure limit ws n line y acc).length),
        ((wrapCaptionAux measure limit ws n line y acc).get ⟨k, hk⟩).2
          = y0 + 30 * k := by
  intro ws
  induction ws with
  | nil =>
    intro n line y acc hy hacc
    simp only [wrapCaptionAux]
    intro k hk
    have hk' : k < acc.length + 1 := by
      simpa using hk
    simp only [List.get_eq_getElem]
    rcases Nat.lt_or_ge k acc.length with h | h
    · rw [List.getElem_append_left h]
      exact hacc k h
    · have hke : k = acc.length := by omega
      rw [List.getElem_concat_length acc (line, y) k hke]
      rw [hy, hke]
  | cons w ws ih =>
    intro n line y acc hy hacc
    simp only [wrapCaptionAux]
    by_cases h : limit < measure (line ++ w ++ " ") ∧ 0 < n
    · rw [if_pos h]
      refine ih (n + 1) (w ++ " ") (y + 30) (acc ++ [(line, y)]) ?_ ?_
      · simp only [List.length_append, List.length_singleton]
        rw [hy]
        push_cast
        ring
      · intro j hj
        simp only [List.length_append, List.length_singleton] at hj
        simp only [List.get_eq_getElem]
        rcases Nat.lt_or_ge j acc.length with hja | hja
        · rw [List.getElem_append_left hja]
          exact hacc j hja
        · have hje : j = acc.length := by omega
          rw [List.getElem_concat_length acc (line, y) j hje]
          rw [hy, hje]
    · rw [if_neg h]
      exact ih (n + 1) _ y acc hy hacc

/-- Claim C6: the export word wrap is the greedy algorithm. The code's
loop equals the spec's description of it (break before a word exactly
when the candidate line's measured width exceeds the limit and the line
already holds a word); the committed lines concatenate back to the word
sequence with single separating spaces (no word is split mid-string); the
final line is always committed; and the k-th committed line is drawn at
`startY + 30k` — the cursor advances by exactly 30 units per break. -/
theorem downloadPhotoStrip_word_wrap :
    (∀ (measure : String → ℚ) (limit : ℚ) (words : List String) (startY : ℤ),
       wrapCaption measure limit words startY
         = wrapCaptionSpec measure limit words startY) ∧
    (∀ (measure : String → ℚ) (limit : ℚ) (words : List String) (startY : ℤ),
       joinAll ((wrapCaption measure limit words startY).map Prod.fst)
         = joinAll (words.map (fun w => w ++ " "))) ∧
    (∀ (measure : String → ℚ) (limit : ℚ) (words : List String) (startY : ℤ),
       1 ≤ (wrapCaption measure limit words startY).length) ∧
    (∀ (measure : String → ℚ) (limit : ℚ) (words : List String) (startY : ℤ)
       (k : ℕ) (hk : k < (wrapCaption measure limit words startY).length),
       ((wrapCaption measure limit words startY).get ⟨k, hk⟩).2
         = startY + 30 * k) := by
  refine ⟨?_, ?_, ?_, ?_⟩
  · intro m l ws sy
    exact wrapCaptionAux_eq_spec m l ws 0 "" sy []
      (iff_of_false (Nat.lt_irrefl 0) (fun hc => hc rfl))
  · intro m l ws sy
    have h := wrapCaptionAux_text m l ws 0 "" sy []
    simpa [joinAll, String.empty_append] using h
  · intro m l ws sy
    simpa using wrapCaptionAux_length m l ws 0 "" sy []
  · intro m l ws sy k hk
    exact wrapCaptionAux_positions m l sy ws 0 "" sy [] (by simp)
      (fun j hj => absurd hj (Nat.not_lt_zero j)) k hk

/-- Claim C6 witness: the wrap evaluated with a concrete measuring
function, limit, word list and start cursor, including the line position
at index 0. -/
theorem downloadPhotoStrip_word_wrap_w :
    (wrapCaption (fun _ => 0) 100 ["a", "b"] 7
      = wrapCaptionSpec (fun _ => 0) 100 ["a", "b"] 7) ∧
    joinAll ((wrapCaption (fun _ => 0) 100 ["a", "b"] 7).map Prod.fst)
      = joinAll (["a", "b"].map (fun w => w ++ " ")) ∧
    1 ≤ (wrapCaption (fun _ => 0) 100 ["a", "b"] 7).length ∧
    ((wrapCaption (fun _ => 0) 100 ["a", "b"] 7).get ⟨0, by decide⟩).2
      = 7 + 30 * 0 :=
  ⟨downloadPhotoStrip_word_wrap.1 (fun _ => 0) 100 ["a", "b"] 7,
   downloadPhotoStrip_word_wrap.2.1 (fun _ => 0) 100 ["a", "b"] 7,
   downloadPhotoStrip_word_wrap.2.2.1 (fun _ => 0) 100 ["a", "b"] 7,
   downloadPhotoStrip_word_wrap.2.2.2 (fun _ => 0) 100 ["a", "b"] 7 0 (by decide)⟩

/-- The mounted component satisfies the countdown invariant. -/
lemma countdownInv_init : CountdownInv initBooth := by
  simp [CountdownInv, initBooth, initAppState]

/-- A settled caption request never touches the `isCapturing` flag. -/
lemma handleGenerateCaption_isCapturing (svc : String → String) (a : AppState) :
    (handleGenerateCaption svc a).1.isCapturing = a.isCapturing := by
  simp only [handleGenerateCaption]
  split <;> rfl

/-- Every event preserves the countdown invariant: `startCountdown` is
guarded by `isCapturing`, a tick keeps or removes the single timer, and
the other events do not touch timers or the flag. -/
lemma countdownInv_step (e : Event) (s : BoothState) (h : CountdownInv s) :
    CountdownInv (step e s) := by
  obtain ⟨h1, h2⟩ := h
  cases e with
  | startCount =>
    simp only [step, startCountdown]
    by_cases hc : s.app.isCapturing = true
    · rw [if_pos hc]
      exact ⟨h1, h2⟩
    · rw [if_neg hc]
      have ht : s.timers = [] := by
        by_contra hne
        exact hc (h2.mpr hne)
      constructor
      · simp [ht]
      · simp [ht]
  | tick i env =>
    simp only [step, tickTimer]
    cases hg : s.timers.get? i with
    | none => exact ⟨h1, h2⟩
    | some count =>
      dsimp only
      have hlt : i < s.timers.length := by
        by_contra hge
        rw [List.get?_len_le (Nat.le_of_not_lt hge)] at hg
        exact Option.noConfusion hg
      have hne : s.timers ≠ [] := by
        intro hnil
        rw [hnil] at hlt
        exact Nat.not_lt_zero i hlt
      have hcap : s.app.isCapturing = true := h2.mpr hne
      have hlen1 : s.timers.length = 1 := by omega
      have hi0 : i = 0 := by omega
      obtain ⟨t, hts⟩ := List.length_eq_one.mp hlen1
      by_cases hc : 0 < count - 1
      · rw [if_pos hc]
        refine ⟨by simp [List.length_set]; omega, ?_, ?_⟩
        · intro _
          rw [hts, hi0]
          simp
        · intro _
          exact hcap
      · rw [if_neg hc]
        constructor
        · rw [hts, hi0]
          simp
        · constructor
          · intro hfalse
            simp at hfalse
          · intro hne2
            rw [hts, hi0] at hne2
            simp at hne2
  | selectFilter f => exact ⟨h1, h2⟩
  | clearPhotos => exact ⟨h1, h2⟩
  | caption svc =>
    refine ⟨h1, ?_⟩
    simp only [step, handleGenerateCaption_isCapturing]
    exact h2

/-- The countdown invariant holds in every reachable state. -/
lemma reachable_inv (s : BoothState) (h : Reachable s) : CountdownInv s := by
  induction h with
  | init => exact countdownInv_init
  | step e hr ih => exact countdownInv_step e _ ih

/-- Claim C9: a countdown in progress blocks starting another. In every
reachable state at most one interval timer exists (no two countdowns run
simultaneously); invoking `startCountdown` while `isCapturing` is set is
a no-op; and a countdown started in an idle state shows 3, ticks to 2 and
1 with no capture taken, and on its third one-second tick fires exactly
one capture (one photo appended), resetting the countdown and flag. -/
theorem startCountdown_exclusive :
    (∀ s : BoothState, Reachable s → s.timers.length ≤ 1) ∧
    (∀ s : BoothState, s.app.isCapturing = true → startCountdown s = s) ∧
    (∀ (s : BoothState) (env1 env2 : CaptureEnv) (base : List Pixel) (noise : List ℚ)
       (now : ℤ) (encode : List Pixel → String),
       s.app.isCapturing = false → s.timers = [] →
       ((step Event.startCount s).app.countdown = some 3 ∧
        (step (Event.tick 0 env1) (step Event.startCount s)).app.countdown = some 2 ∧
        (step (Event.tick 0 env1) (step Event.startCount s)).app.photos = s.app.photos ∧
        (step (Event.tick 0 env2)
          (step (Event.tick 0 env1) (step Event.startCount s))).app.countdown = some 1 ∧
        (step (Event.tick 0 env2)
          (step (Event.tick 0 env1) (step Event.startCount s))).app.photos = s.app.photos ∧
        step (Event.tick 0 ⟨true, true, some base, noise, now, encode⟩)
            (step (Event.tick 0 env2) (step (Event.tick 0 env1) (step Event.startCount s)))
          = { app := { s.app with
                photos := s.app.photos ++ [⟨toString now,
                  encode (capturedPixels s.app.selectedFilter.name base noise), now,
                  s.app.selectedFilter.name⟩],
                countdown := none,
                isCapturing := false },
              timers := [] })) := by
  refine ⟨?_, ?_, ?_⟩
  · intro s hr
    exact (reachable_inv s hr).1
  · intro s h
    simp [startCountdown, h]
  · intro s env1 env2 base noise now encode hcap ht
    have h1 : step Event.startCount s
        = { app := { s.app with isCapturing := true, countdown := some 3 },
            timers := [3] } := by
      simp [step, startCountdown, hcap, ht]
    rw [h1]
    exact ⟨rfl, rfl, rfl, rfl, rfl, rfl⟩

/-- Claim C9 witness: the invariant at the initial state, the guard on a
state whose countdown is running, and the first tick of a countdown
started at the initial state leaving the collection unchanged. -/
theorem startCountdown_exclusive_w :
    initBooth.timers.length ≤ 1 ∧
    startCountdown (step Event.startCount initBooth) = step Event.startCount initBooth ∧
    (step (Event.tick 0 ⟨true, true, some [], [], 0, fun _ => ""⟩)
        (step Event.startCount initBooth)).app.photos = initBooth.app.photos :=
  ⟨startCountdown_exclusive.1 initBooth Reachable.init,
   startCountdown_exclusive.2.1 (step Event.startCount initBooth) rfl,
   (startCountdown_exclusive.2.2 initBooth ⟨true, true, some [], [], 0, fun _ => ""⟩
      ⟨true, true, some [], [], 0, fun _ => ""⟩ [] [] 0 (fun _ => "") rfl rfl).2.2.1⟩

end RetroBooth
